import Mathlib

/-!
Verification of the "Who Lies Tonight" (WLT) game server core.

This file is a shallow embedding, in Lean 4, of the server-side game logic of
the WLT social-deduction game: role assignment, night resolution, day-vote
resolution, win evaluation, the socket event handlers (night_action, day_vote,
chat_message, join_room, reconnect_player) and the grace-period disconnect
logic.  Each definition mirrors the corresponding TypeScript function in
`gameLogic.ts`, `roomManager.ts` and `server.ts`:

* JS `Map` objects (players, day votes) become lists kept in insertion order;
  `Map.set` on a fresh key appends, on an existing key updates in place.
* JS `Set` objects (nightActionsSubmitted) become lists used only through
  membership and append.
* `setTimeout`/`clearTimeout` driven control flow is modelled by invoking the
  scheduled resolver synchronously at the point where the source either lets
  the timer fire or cancels it and resolves early; the wall-clock values
  (`Date.now()`) become explicit `Nat` parameters.
* `Math.random()` tie-breaking becomes an explicit `Nat` choice parameter `k`,
  used as `k % candidates.length`, quantified in the theorems.
* Revealing side channels (socket emits, Supabase writes, narrator text,
  cutscene variants) are dropped: they do not feed back into game state.
-/

deriving instance DecidableEq for Except

namespace WLT

/-- Player roles, from `gameState.ts` (`type Role`). -/
inductive Role where
  | mafia
  | doctor
  | detective
  | citizen
deriving DecidableEq, Repr

/-- Game phases, from `gameState.ts` (`type Phase`). -/
inductive Phase where
  | lobby
  | night
  | day
  | vote
  | ended
deriving DecidableEq, Repr

/-- Night outcome categories, from `gameState.ts` (`type NightOutcome`). -/
inductive NightOutcome where
  | killed
  | saved
  | no_kill
deriving DecidableEq, Repr

/-- One participant, mirroring `interface Player` in `gameState.ts`
(the opaque avatar reference is omitted). -/
structure Player where
  id : String
  sessionId : String
  name : String
  role : Role
  alive : Bool
  connected : Bool
  disconnectedAt : Option Nat
  chatCount : Nat
  chatWindowStart : Nat
deriving DecidableEq, Repr

/-- Full room state, mirroring `interface Room` in `gameState.ts`.  The
`players` map and the `votes` map are lists in insertion order; the fields
that never feed back into game logic (`code`, `timer`, `lastActivity`,
`gameStartedAt`) are omitted, timers being modelled as synchronous resolver
calls (see the module docstring). -/
structure Room where
  hostId : String
  players : List Player
  phase : Phase
  round : Nat
  mafiaVotes : List (String × String)
  doctorSave : Option String
  detectiveTarget : Option String
  votes : List (String × String)
  nightActionsSubmitted : List String
  started : Bool
deriving DecidableEq, Repr

/-- Maximum players allowed in a room (`MAX_PLAYERS` in `gameLogic.ts`). -/
def MAX_PLAYERS : Nat := 12

/-- Lookup of `room.players.get(id)` (a JS `Map` keyed by socket id). -/
def findPlayer (room : Room) (id : String) : Option Player :=
  room.players.find? (fun p => p.id = id)

/-- `getAlivePlayers` from `gameLogic.ts`. -/
def getAlivePlayers (room : Room) : List Player :=
  room.players.filter (fun p => p.alive)

/-- `getAliveMafia` from `gameLogic.ts`. -/
def getAliveMafia (room : Room) : List Player :=
  (getAlivePlayers room).filter (fun p => p.role = Role.mafia)

/-- One step of building a JS tally object `tally[k] = (tally[k] ?? 0) + 1`:
increment the entry for `k`, inserting it at the end when absent (JS objects
enumerate string keys in insertion order). -/
def bump : List (String × Nat) → String → List (String × Nat)
  | [], k => [(k, 1)]
  | (k', c) :: rest, k =>
    if k' = k then (k', c + 1) :: rest else (k', c) :: bump rest k

/-- Lookup in a tally list, `0` when the key is absent. -/
def lookupC (t : List (String × Nat)) (k : String) : Nat :=
  match t.find? (fun e => e.1 = k) with
  | some e => e.2
  | none => 0

/-- The tally loop of `resolveNight` / `resolveDayVote`: count votes by target. -/
def tallyTargets (votes : List (String × String)) : List (String × Nat) :=
  votes.foldl (fun t v => bump t v.2) []

/-- `Math.max(...Object.values(tally))` with `0` for the empty tally. -/
def maxC (t : List (String × Nat)) : Nat :=
  (t.map Prod.snd).foldr max 0

/-- `checkWinCondition` winners (`type WinResult` minus `null`). -/
inductive Winner where
  | mafia
  | town
deriving DecidableEq, Repr

/-- `checkWinCondition` from `gameLogic.ts`: town wins when no mafia is left
alive, mafia wins when the living mafia are at least as many as the living
non-mafia, otherwise the game continues (`none`). -/
def checkWinCondition (room : Room) : Option Winner :=
  let alive := getAlivePlayers room
  let aliveMafia := alive.filter (fun p => p.role = Role.mafia)
  let aliveTown := alive.filter (fun p => ¬ p.role = Role.mafia)
  if aliveMafia.length = 0 then some Winner.town
  else if aliveTown.length ≤ aliveMafia.length then some Winner.mafia
  else none

end WLT

namespace WLT

/-- Result record of `resolveNight` (`interface NightResolutionResult`,
without the cutscene flavor field). -/
structure NightResolutionResult where
  killedPlayerId : Option String
  saved : Bool
  outcome : NightOutcome
deriving DecidableEq, Repr

/-- The mafia-target selection inside `resolveNight`: tally the mafia votes,
take the candidates holding the maximum count and pick one of them; the
`Math.random()` draw is the explicit parameter `k`, used as
`k % candidates.length`. Returns `none` when no mafia vote was cast. -/
def nightTargetChoice (room : Room) (k : Nat) : Option String :=
  let t := tallyTargets room.mafiaVotes
  if t.isEmpty then none
  else
    let m := maxC t
    let candidates := (t.filter (fun e => e.2 = m)).map Prod.fst
    some (candidates.getD (k % candidates.length) "")

/-- `resolveNight` from `gameLogic.ts`: no vote means `no_kill`; a chosen
target equal to the doctor save is `saved`; a missing or already-dead target
is a defensive `no_kill`; otherwise the kill succeeds. -/
def resolveNight (room : Room) (k : Nat) : NightResolutionResult :=
  match nightTargetChoice room k with
  | none => ⟨none, false, NightOutcome.no_kill⟩
  | some tgt =>
    if room.doctorSave = some tgt then ⟨some tgt, true, NightOutcome.saved⟩
    else
      match findPlayer room tgt with
      | none => ⟨none, false, NightOutcome.no_kill⟩
      | some t =>
        if t.alive then ⟨some tgt, false, NightOutcome.killed⟩
        else ⟨none, false, NightOutcome.no_kill⟩

/-- The state mutation of `resolveNightPhase` in `server.ts`: guard on the
night phase, apply the kill when one happened, then run the win check and
enter `ended` on a win (the emits and the timer to `startDayPhase` are
side channels). -/
def resolveNightPhaseStep (room : Room) (k : Nat) : Room :=
  if ¬ room.phase = Phase.night then room
  else
    let result := resolveNight room k
    let room1 :=
      match result.killedPlayerId, result.saved with
      | some pid, false =>
        { room with
          players := room.players.map
            (fun p => if p.id = pid then { p with alive := false } else p) }
      | _, _ => room
    match checkWinCondition room1 with
    | some _ => { room1 with phase := Phase.ended }
    | none => room1

/-- The scan state of the top-candidate loop in `resolveDayVote`
(`topCandidate` / `topCount` / `isTied`). -/
structure ScanState where
  topCandidate : Option String
  topCount : Nat
  isTied : Bool
deriving DecidableEq, Repr

/-- One iteration of the `resolveDayVote` loop over the tally entries. -/
def scanStep (s : ScanState) (e : String × Nat) : ScanState :=
  if s.topCount < e.2 then ⟨some e.1, e.2, false⟩
  else if e.2 = s.topCount then ⟨s.topCandidate, s.topCount, true⟩
  else s

/-- `resolveDayVote` from `gameLogic.ts`: tally the day votes by target and
lynch the strict top scorer; a tie for the top spot or an empty vote map
lynches no one. -/
def resolveDayVote (votes : List (String × String)) : Option String :=
  let t := tallyTargets votes
  let s := t.foldl scanStep ⟨none, 0, false⟩
  match s.topCandidate with
  | none => none
  | some c => if s.isTied ∨ s.topCount = 0 then none else some c

/-- The state mutation of `resolveVotePhase` in `server.ts`: guard on the
vote phase, flip the lynched player's alive flag when the vote produced one,
then run the win check and enter `ended` on a win (the emits and the timer to
the next `startNightPhase` are side channels). -/
def resolveVotePhaseStep (room : Room) : Room :=
  if ¬ room.phase = Phase.vote then room
  else
    let room1 :=
      match resolveDayVote room.votes with
      | some pid =>
        { room with
          players := room.players.map
            (fun p => if p.id = pid then { p with alive := false } else p) }
      | none => room
    match checkWinCondition room1 with
    | some _ => { room1 with phase := Phase.ended }
    | none => room1

end WLT

namespace WLT

/-- Mafia head-count formula of `assignRoles`: 33 percent rounded down with a
minimum of one (`Math.max(1, Math.floor(n * 0.33))`, written over exact
naturals; the two floors agree for every roster size). -/
def mafiaHeadCount (n : Nat) : Nat := max 1 (n * 33 / 100)

/-- One doctor slot whenever an index remains after the mafia block
(`if (hasDoctor && idx < n)` with `hasDoctor` always true). -/
def doctorSlots (n : Nat) : Nat := if mafiaHeadCount n < n then 1 else 0

/-- One detective slot when the roster exceeds four players and an index
remains (`if (hasDetective && idx < n)`). -/
def detectiveSlots (n : Nat) : Nat :=
  if 4 < n ∧ mafiaHeadCount n + doctorSlots n < n then 1 else 0

/-- Citizens fill every remaining slot (`while (idx < n)`). -/
def citizenSlots (n : Nat) : Nat :=
  n - (mafiaHeadCount n + doctorSlots n + detectiveSlots n)

/-- The role sequence `assignRoles` deals to the shuffled players, in the
order the source assigns them: `mafiaHeadCount n` mafia, one doctor when a
slot remains, one detective when the roster exceeds four players and a slot
remains, and citizens for every remaining slot. -/
def rolesFor (n : Nat) : List Role :=
  List.replicate (mafiaHeadCount n) Role.mafia ++
  List.replicate (doctorSlots n) Role.doctor ++
  List.replicate (detectiveSlots n) Role.detective ++
  List.replicate (citizenSlots n) Role.citizen

/-- `assignRoles` from `gameLogic.ts`, parameterized over the shuffled player
order (`[...playerIds].sort(() => Math.random() - 0.5)` produces some
permutation of the input; the theorems quantify over it). -/
def assignRoles (shuffled : List String) : List (String × Role) :=
  shuffled.zip (rolesFor shuffled.length)

/-- Night actions accepted by the `night_action` handler. -/
inductive NightActionKind where
  | kill
  | save
  | investigate
deriving DecidableEq, Repr

/-- The `night_action` socket handler in `server.ts`: phase, liveness,
duplicate-submission and target validation, then the role-specific mutation.
Only the first kill vote of the whole room is pushed onto `mafiaVotes`
(`if (room.mafiaVotes.length === 0)`); every accepted action records the
sender in `nightActionsSubmitted`.  `Except.error` carries the message sent
back to the client (game state unchanged). -/
def nightActionHandler (room : Room) (senderId : String)
    (action : NightActionKind) (targetId : String) : Except String Room :=
  if ¬ room.phase = Phase.night then Except.error "Not night phase."
  else
    match findPlayer room senderId with
    | none => Except.error "You are not alive."
    | some player =>
      if ¬ player.alive then Except.error "You are not alive."
      else if senderId ∈ room.nightActionsSubmitted then
        Except.error "You already submitted a night action."
      else
        match findPlayer room targetId with
        | none => Except.error "Invalid target."
        | some target =>
          if ¬ target.alive then Except.error "Invalid target."
          else
            match action with
            | NightActionKind.kill =>
              if ¬ player.role = Role.mafia then Except.error "Only mafia can kill."
              else if targetId = senderId then Except.error "Cannot target yourself."
              else
                let room1 :=
                  if room.mafiaVotes.isEmpty then
                    { room with mafiaVotes := room.mafiaVotes ++ [(senderId, targetId)] }
                  else room
                Except.ok { room1 with
                  nightActionsSubmitted := room1.nightActionsSubmitted ++ [senderId] }
            | NightActionKind.save =>
              if ¬ player.role = Role.doctor then Except.error "Only doctor can save."
              else
                Except.ok { room with
                  doctorSave := some targetId,
                  nightActionsSubmitted := room.nightActionsSubmitted ++ [senderId] }
            | NightActionKind.investigate =>
              if ¬ player.role = Role.detective then Except.error "Only detective can investigate."
              else
                Except.ok { room with
                  detectiveTarget := some targetId,
                  nightActionsSubmitted := room.nightActionsSubmitted ++ [senderId] }

/-- The completeness test of `checkNightActionsComplete` in `server.ts`:
at least one living mafia member and every living mafia member occurs among
the recorded vote casters, the doctor has chosen a save when a living doctor
exists, and the detective has chosen a target when a living detective
exists. -/
def nightComplete (room : Room) : Bool :=
  let alive := getAlivePlayers room
  let aliveMafia := alive.filter (fun p => p.role = Role.mafia)
  let mafiaVoters := room.mafiaVotes.map Prod.fst
  let allMafiaVoted :=
    (decide (0 < aliveMafia.length)) && aliveMafia.all (fun p => mafiaVoters.contains p.id)
  let doctorActed :=
    if alive.any (fun p => p.role = Role.doctor) then room.doctorSave.isSome else true
  let detectiveActed :=
    if alive.any (fun p => p.role = Role.detective) then room.detectiveTarget.isSome else true
  allMafiaVoted && doctorActed && detectiveActed

/-- `checkNightActionsComplete` from `server.ts`: when the room is in the
night phase and all required actions are in, cancel the pending timer and
resolve the night at once (the Boolean reports whether early resolution
fired). -/
def checkNightActionsComplete (room : Room) (k : Nat) : Room × Bool :=
  if room.phase = Phase.night ∧ nightComplete room then
    (resolveNightPhaseStep room k, true)
  else (room, false)

/-- `Map.set` on the day-vote map: update in place when the voter already has
an entry, append otherwise (JS `Map` keeps the original insertion position on
update). -/
def setAssoc : List (String × String) → String → String → List (String × String)
  | [], k, v => [(k, v)]
  | (k', v') :: rest, k, v =>
    if k' = k then (k, v) :: rest else (k', v') :: setAssoc rest k v

/-- The `day_vote` socket handler in `server.ts`: phase, voter, target and
self-vote validation, record the vote, then resolve the vote phase early
(cancelling the pending timer) as soon as the vote count reaches the living
player count.  Failed validations leave the room unchanged. -/
def dayVoteHandler (room : Room) (senderId targetId : String) : Room :=
  if ¬ room.phase = Phase.vote then room
  else
    match findPlayer room senderId with
    | none => room
    | some voter =>
      if ¬ voter.alive then room
      else
        match findPlayer room targetId with
        | none => room
        | some target =>
          if ¬ target.alive then room
          else if targetId = senderId then room
          else
            let room1 := { room with votes := setAssoc room.votes senderId targetId }
            if (getAlivePlayers room1).length ≤ room1.votes.length then
              resolveVotePhaseStep room1
            else room1

end WLT

namespace WLT

/-- Chat channels (`'global' | 'mafia'`). -/
inductive ChatChannel where
  | global
  | mafia
deriving DecidableEq, Repr

/-- Trim whitespace from both ends of a character list (the `.trim()` step of
the chat and username sanitizers). -/
def trimSpaces (cs : List Char) : List Char :=
  ((cs.dropWhile Char.isWhitespace).reverse.dropWhile Char.isWhitespace).reverse

/-- The sanitization applied to chat text: strip `<` and `>`, trim, cap at
300 characters. -/
def sanitizeChatText (text : String) : String :=
  String.mk
    ((trimSpaces (text.toList.filter (fun c => ¬ (c.toNat = 60 ∨ c.toNat = 62)))).take 300)

/-- The `chat_message` socket handler in `server.ts`.  Returns the updated
room and whether the message was actually delivered.  Dead senders are
rejected on the global channel; the mafia channel requires a mafia sender and
more than one living mafia; then the rolling 5-second window rate limit
applies (its counters do mutate the room), and blank sanitized text is
dropped. -/
def chatMessageHandler (room : Room) (senderId : String) (channel : ChatChannel)
    (text : String) (now : Nat) : Room × Bool :=
  match findPlayer room senderId with
  | none => (room, false)
  | some player =>
    if ¬ player.alive ∧ channel = ChatChannel.global then (room, false)
    else if channel = ChatChannel.mafia ∧ ¬ player.role = Role.mafia then (room, false)
    else if channel = ChatChannel.mafia ∧ (getAliveMafia room).length ≤ 1 then (room, false)
    else
      let reset := 5000 < now - player.chatWindowStart
      let count1 := (if reset then 0 else player.chatCount) + 1
      let start1 := if reset then now else player.chatWindowStart
      let player1 := { player with chatCount := count1, chatWindowStart := start1 }
      let room1 := { room with
        players := room.players.map (fun q => if q.id = senderId then player1 else q) }
      if 10 < count1 then (room1, false)
      else if sanitizeChatText text = "" then (room1, false)
      else (room1, true)

/-- The identity transfer inside the `reconnect_player` handler: re-key the
player record under the new socket id (delete + set appends at the end of the
map), mark it connected, and restore the host seat when the old id held it. -/
def transferPlayer (room : Room) (p : Player) (newId : String) : Room :=
  let p' := { p with id := newId, connected := true, disconnectedAt := none }
  { room with
    players := (room.players.filter (fun q => ¬ q.id = p.id)) ++ [p'],
    hostId := if room.hostId = p.id then newId else room.hostId }

/-- The `reconnect_player` socket handler in `server.ts`: find the player by
stable session id, reject when the 30-second reconnect window has elapsed
since the recorded disconnect, otherwise transfer the record to the new
socket id leaving the rest of the room untouched. -/
def reconnectPlayer (room : Room) (sessionId newId : String) (now : Nat) :
    Except String Room :=
  match room.players.find? (fun p => p.sessionId = sessionId) with
  | none => Except.error "Session not found."
  | some p =>
    match p.disconnectedAt with
    | some t =>
      if 30000 < now - t then Except.error "Reconnect window expired."
      else Except.ok (transferPlayer room p newId)
    | none => Except.ok (transferPlayer room p newId)

/-- The grace period started by `handleDisconnect` for an unexpected
disconnect: 15 seconds in the lobby, 30 seconds otherwise (milliseconds). -/
def gracePeriodMs (room : Room) : Nat :=
  if room.phase = Phase.lobby then 15000 else 30000

/-- The timer callback of `handleDisconnect` in `server.ts`, run once the
grace period elapses: a player still disconnected is removed from a lobby
room (promoting the first remaining player to host when needed, deleting the
room when it became empty — the `none` result), and is marked eliminated
mid-game, followed by an immediate win check. -/
def graceExpire (room : Room) (socketId : String) : Option Room :=
  match findPlayer room socketId with
  | none => some room
  | some p =>
    if p.connected then some room
    else if room.phase = Phase.lobby then
      let remaining := room.players.filter (fun q => ¬ q.id = socketId)
      let host1 :=
        if room.hostId = socketId ∧ 0 < remaining.length then
          match remaining.head? with
          | some q => q.id
          | none => room.hostId
        else room.hostId
      if remaining.length = 0 then none
      else some { room with players := remaining, hostId := host1 }
    else
      let room1 := { room with
        players := room.players.map
          (fun q => if q.id = socketId then { q with alive := false } else q) }
      match checkWinCondition room1 with
      | some _ => some { room1 with phase := Phase.ended }
      | none => some room1

/-- Username sanitization from `gameLogic.ts`: drop the characters
`< > & " ' / \`, collapse whitespace runs to single spaces, trim, and require
3 to 16 characters. -/
def stripBadChars (cs : List Char) : List Char :=
  cs.filter (fun c => ¬ c.toNat ∈ [60, 62, 38, 34, 39, 47, 92])

/-- Collapse runs of whitespace (already mapped to spaces) to single spaces,
the `replace(/\s+/g, ' ')` step. -/
def squeezeSpaces : List Char → List Char
  | [] => []
  | [c] => [c]
  | c :: d :: rest =>
    if c = ' ' ∧ d = ' ' then squeezeSpaces (d :: rest)
    else c :: squeezeSpaces (d :: rest)

/-- `sanitizeUsername` from `gameLogic.ts`. -/
def sanitizeUsername (raw : String) : Option String :=
  let mapped := (stripBadChars raw.toList).map (fun c => if c.isWhitespace then ' ' else c)
  let cleaned := trimSpaces (squeezeSpaces mapped)
  if cleaned.length < 3 ∨ 16 < cleaned.length then none else some (String.mk cleaned)

/-- `createPlayer` from `gameLogic.ts` (the session id is generated by
`uuidv4()`; here it is a parameter, like the clock). -/
def createPlayer (socketId sessionId name : String) (now : Nat) : Player :=
  { id := socketId, sessionId := sessionId, name := name, role := Role.citizen,
    alive := true, connected := true, disconnectedAt := none,
    chatCount := 0, chatWindowStart := now }

/-- The `join_room` socket handler in `server.ts`: reject when the game has
started or the room already holds `MAX_PLAYERS` players, validate the
username and its case-insensitive uniqueness, then append the new player. -/
def joinRoom (room : Room) (socketId sessionId username : String) (now : Nat) :
    Except String Room :=
  if room.started then Except.error "Game already in progress."
  else if MAX_PLAYERS ≤ room.players.length then
    Except.error "Room is full (max 12 players)."
  else
    match sanitizeUsername username with
    | none => Except.error "Invalid username (3-16 chars)."
    | some name =>
      if room.players.any
          (fun p => p.name.toList.map Char.toLower = name.toList.map Char.toLower) then
        Except.error "Username already taken in this room."
      else
        Except.ok { room with
          players := room.players ++ [createPlayer socketId sessionId name now] }

end WLT

namespace WLT

/-- Shorthand for building concrete players in the witness rooms. -/
def mkTestPlayer (id : String) (role : Role) (alive : Bool) : Player :=
  { id := id, sessionId := "s" ++ id, name := "n" ++ id, role := role,
    alive := alive, connected := true, disconnectedAt := none,
    chatCount := 0, chatWindowStart := 0 }

/-- Shorthand for building concrete in-game rooms in the witness statements. -/
def mkTestRoom (players : List Player) (phase : Phase) : Room :=
  { hostId := "A", players := players, phase := phase, round := 1,
    mafiaVotes := [], doctorSave := none, detectiveTarget := none,
    votes := [], nightActionsSubmitted := [], started := true }

/-- Boundary roster: two living mafia, two living town, one dead town player. -/
def roomTwoVsTwo : Room :=
  mkTestRoom
    [mkTestPlayer "A" Role.mafia true, mkTestPlayer "B" Role.mafia true,
     mkTestPlayer "C" Role.doctor true, mkTestPlayer "D" Role.citizen true,
     mkTestPlayer "E" Role.citizen false]
    Phase.day

/-- Boundary roster: one living mafia, two living town, one dead mafia. -/
def roomOneVsTwo : Room :=
  mkTestRoom
    [mkTestPlayer "A" Role.mafia true, mkTestPlayer "B" Role.mafia false,
     mkTestPlayer "C" Role.doctor true, mkTestPlayer "D" Role.citizen true]
    Phase.day

/-- C4: the win check is computed from the living roster alone: town wins
exactly when no mafia is alive; mafia wins exactly when some mafia is alive
and the living mafia are at least as many as the living non-mafia; the game
continues exactly when some mafia is alive and strictly outnumbered.  At the
boundaries, 2 living mafia vs 2 living town is a mafia win and 1 living mafia
vs 2 living town is no winner. -/
theorem c4_win_condition (room : Room) :
    (checkWinCondition room = some Winner.town ↔ (getAliveMafia room).length = 0) ∧
    (checkWinCondition room = some Winner.mafia ↔
      0 < (getAliveMafia room).length ∧
        ((getAlivePlayers room).filter (fun p => ¬ p.role = Role.mafia)).length ≤
          (getAliveMafia room).length) ∧
    (checkWinCondition room = none ↔
      0 < (getAliveMafia room).length ∧
        (getAliveMafia room).length <
          ((getAlivePlayers room).filter (fun p => ¬ p.role = Role.mafia)).length) ∧
    checkWinCondition roomTwoVsTwo = some Winner.mafia ∧
    checkWinCondition roomOneVsTwo = none := by
  have h3 : (checkWinCondition room = some Winner.town ↔
        (getAliveMafia room).length = 0) ∧
      (checkWinCondition room = some Winner.mafia ↔
        0 < (getAliveMafia room).length ∧
          ((getAlivePlayers room).filter (fun p => ¬ p.role = Role.mafia)).length ≤
            (getAliveMafia room).length) ∧
      (checkWinCondition room = none ↔
        0 < (getAliveMafia room).length ∧
          (getAliveMafia room).length <
            ((getAlivePlayers room).filter (fun p => ¬ p.role = Role.mafia)).length) := ?_
  · exact ⟨h3.1, h3.2.1, h3.2.2, by decide, by decide⟩
  simp only [checkWinCondition, getAliveMafia]
  split_ifs with h1 h2
  · exact ⟨⟨fun _ => h1, fun _ => rfl⟩,
      ⟨fun h => absurd h (by decide), fun h => (by omega : False).elim⟩,
      ⟨fun h => absurd h (by decide), fun h => (by omega : False).elim⟩⟩
  · exact ⟨⟨fun h => absurd h (by decide), fun h => (by omega : False).elim⟩,
      ⟨fun _ => ⟨by omega, h2⟩, fun _ => rfl⟩,
      ⟨fun h => absurd h (by decide), fun h => (by omega : False).elim⟩⟩
  · exact ⟨⟨fun h => absurd h (by decide), fun h => (by omega : False).elim⟩,
      ⟨fun h => absurd h (by decide), fun h => (by omega : False).elim⟩,
      ⟨fun _ => ⟨by omega, by omega⟩, fun _ => rfl⟩⟩

end WLT

namespace WLT

/-- Removing the unique player holding a given id from a roster with
pairwise-distinct ids shortens it by exactly one. -/
theorem length_filter_ne_id (l : List Player) (p : Player) (hp : p ∈ l)
    (hnd : (l.map Player.id).Nodup) :
    (l.filter (fun q => ¬ q.id = p.id)).length + 1 = l.length := by
  induction l with
  | nil => cases hp
  | cons a l ih =>
    simp only [List.map_cons, List.nodup_cons, List.mem_map] at hnd
    rcases List.mem_cons.mp hp with rfl | hmem
    · have hall : l.filter (fun q => ¬ q.id = p.id) = l := by
        apply List.filter_eq_self.mpr
        intro q hq
        simp only [decide_eq_true_eq]
        intro hqe
        exact hnd.1 ⟨q, hq, hqe⟩
      simp [hall]
      exact fun a ha he => hnd.1 ⟨a, ha, he⟩
    · have hane : ¬ a.id = p.id := by
        intro he
        exact hnd.1 ⟨p, hmem, he.symm⟩
      simp only [List.filter_cons, decide_eq_true_eq, hane, not_false_iff, if_pos,
        List.length_cons]
      have := ih hmem hnd.2
      simp only [decide_not]
      simp only [decide_not] at this
      omega

/-- A full lobby used in the C10 witness. -/
def lobbyRoomStarted : Room :=
  { mkTestRoom
      [mkTestPlayer "A" Role.citizen true, mkTestPlayer "B" Role.citizen true,
       mkTestPlayer "C" Role.citizen true, mkTestPlayer "D" Role.citizen true]
      Phase.night with started := true }

/-- An open lobby used in the C10 witness. -/
def lobbyRoomOpen : Room :=
  { mkTestRoom
      [mkTestPlayer "A" Role.citizen true, mkTestPlayer "B" Role.citizen true,
       mkTestPlayer "C" Role.citizen true, mkTestPlayer "D" Role.citizen true]
      Phase.lobby with started := false }

/-- The room produced by a successful join into `lobbyRoomOpen`. -/
def lobbyRoomJoined : Room :=
  { lobbyRoomOpen with
    players := lobbyRoomOpen.players ++ [createPlayer "F" "sF" "Fred" 0] }

/-- C10: a join into a started room or a room already holding `MAX_PLAYERS`
(12) is rejected with the roster unchanged; an accepted join implies the room
had not started and had room, and grows the roster by exactly one, keeping it
within 12; a reconnect transfers identity without changing the roster size.
Hence the roster never exceeds 12 and never gains a member after start. -/
theorem c10_join_room (room : Room) (socketId sessionId username : String) (now : Nat) :
    (room.started = true →
      joinRoom room socketId sessionId username now =
        Except.error "Game already in progress.") ∧
    (room.started = false → MAX_PLAYERS ≤ room.players.length →
      joinRoom room socketId sessionId username now =
        Except.error "Room is full (max 12 players).") ∧
    (∀ r', joinRoom room socketId sessionId username now = Except.ok r' →
      room.started = false ∧ room.players.length < MAX_PLAYERS ∧
      r'.players.length = room.players.length + 1 ∧
      r'.players.length ≤ MAX_PLAYERS ∧ r'.started = false) ∧
    (∀ sid nid now2 r2, (room.players.map Player.id).Nodup →
      reconnectPlayer room sid nid now2 = Except.ok r2 →
      r2.players.length = room.players.length) := by
  refine ⟨fun hst => by simp [joinRoom, hst], fun hst hfull => by simp [joinRoom, hst, hfull],
    ?_, ?_⟩
  · intro r' h
    unfold joinRoom at h
    split_ifs at h with hst hfull
    split at h
    · exact Except.noConfusion h
    · rename_i name hsan
      split_ifs at h with htaken
      cases h
      refine ⟨by simpa using hst, by simpa [MAX_PLAYERS] using hfull, by simp, ?_, ?_⟩
      · simp only [List.length_append, List.length_cons, List.length_nil]
        simp only [MAX_PLAYERS] at hfull ⊢
        omega
      · simpa using hst
  · intro sid nid now2 r2 hnd h
    unfold reconnectPlayer at h
    split at h
    · exact Except.noConfusion h
    · rename_i p hf
      have hp : p ∈ room.players := List.mem_of_find?_eq_some hf
      have hlen := length_filter_ne_id room.players p hp hnd
      split at h
      · split_ifs at h with hw
        cases h
        simp only [transferPlayer, List.length_append, List.length_cons, List.length_nil]
        omega
      · cases h
        simp only [transferPlayer, List.length_append, List.length_cons, List.length_nil]
        omega

end WLT

namespace WLT

/-- A lobby already holding twelve players, used in the C10 witness. -/
def fullRoom : Room :=
  { mkTestRoom
      [mkTestPlayer "P01" Role.citizen true, mkTestPlayer "P02" Role.citizen true,
       mkTestPlayer "P03" Role.citizen true, mkTestPlayer "P04" Role.citizen true,
       mkTestPlayer "P05" Role.citizen true, mkTestPlayer "P06" Role.citizen true,
       mkTestPlayer "P07" Role.citizen true, mkTestPlayer "P08" Role.citizen true,
       mkTestPlayer "P09" Role.citizen true, mkTestPlayer "P10" Role.citizen true,
       mkTestPlayer "P11" Role.citizen true, mkTestPlayer "P12" Role.citizen true]
      Phase.lobby with started := false }

/-- The C10 witness lobby with player B sitting disconnected. -/
def reconRoomBefore : Room :=
  { lobbyRoomOpen with
    players := lobbyRoomOpen.players.map
      (fun p => if p.id = "B" then { p with connected := false, disconnectedAt := some 1000 } else p) }

/-- The room after B reconnects in `reconRoomBefore` under socket `Z`. -/
def reconRoomAfter : Room :=
  transferPlayer reconRoomBefore
    { mkTestPlayer "B" Role.citizen true with connected := false, disconnectedAt := some 1000 }
    "Z"

/-- Concrete run of `c10_join_room`: a started room and a full room both
reject a join; an accepted join grows a four-player lobby to five, within the
cap; a reconnect keeps the roster size. -/
theorem c10_join_room_witness :
    joinRoom lobbyRoomStarted "F" "sF" "Fred" 0 =
      Except.error "Game already in progress." ∧
    joinRoom fullRoom "F" "sF" "Fred" 0 =
      Except.error "Room is full (max 12 players)." ∧
    lobbyRoomJoined.players.length = lobbyRoomOpen.players.length + 1 ∧
    lobbyRoomJoined.players.length ≤ MAX_PLAYERS ∧
    reconRoomAfter.players.length = reconRoomBefore.players.length := by
  refine ⟨(c10_join_room lobbyRoomStarted "F" "sF" "Fred" 0).1 rfl,
    (c10_join_room fullRoom "F" "sF" "Fred" 0).2.1 rfl (by decide),
    ((c10_join_room lobbyRoomOpen "F" "sF" "Fred" 0).2.2.1 lobbyRoomJoined (by decide)).2.2.1,
    ((c10_join_room lobbyRoomOpen "F" "sF" "Fred" 0).2.2.1 lobbyRoomJoined (by decide)).2.2.2.1,
    (c10_join_room reconRoomBefore "F" "sF" "Fred" 0).2.2.2 "sB" "Z" 20000 reconRoomAfter
      (by decide) (by decide)⟩

end WLT


namespace WLT

/-- A seven-player night-phase room with two living mafia (the 33-percent
rule yields two mafia for seven players), used to test kill-vote recording. -/
def roomTwoMafia : Room :=
  mkTestRoom
    [mkTestPlayer "M1" Role.mafia true, mkTestPlayer "M2" Role.mafia true,
     mkTestPlayer "D1" Role.doctor true, mkTestPlayer "T1" Role.detective true,
     mkTestPlayer "C1" Role.citizen true, mkTestPlayer "C2" Role.citizen true,
     mkTestPlayer "C3" Role.citizen true]
    Phase.night

/-- The case split performed by the kill branch of the `night_action`
handler: an accepted kill vote is appended only when the room-wide vote list
was still empty, and otherwise leaves the list untouched. -/
theorem killVotes_cases (room : Room) (s t : String) (r' : Room)
    (h : nightActionHandler room s NightActionKind.kill t = Except.ok r') :
    (room.mafiaVotes = [] ∧ r'.mafiaVotes = room.mafiaVotes ++ [(s, t)]) ∨
    (¬ room.mafiaVotes = [] ∧ r'.mafiaVotes = room.mafiaVotes) := by
  unfold nightActionHandler at h
  split at h
  · exact Except.noConfusion h
  split at h
  · exact Except.noConfusion h
  rename_i pl hf
  split at h
  · exact Except.noConfusion h
  split at h
  · exact Except.noConfusion h
  split at h
  · exact Except.noConfusion h
  rename_i tg htg
  split at h
  · exact Except.noConfusion h
  dsimp only at h
  split at h
  · exact Except.noConfusion h
  split at h
  · exact Except.noConfusion h
  split at h
  · rename_i he
    cases h
    exact Or.inl ⟨List.isEmpty_iff.mp he, rfl⟩
  · rename_i he
    cases h
    exact Or.inr ⟨fun hnil => he (by simp [hnil]), rfl⟩

/-- One fold step of feeding kill submissions to the night-action handler,
keeping the room unchanged on a rejected submission. -/
def stepKill (room : Room) (s : String × String) : Room :=
  match nightActionHandler room s.1 NightActionKind.kill s.2 with
  | Except.ok r' => r'
  | Except.error _ => room

/-- A sequence of kill submissions applied in order. -/
def applyKillSubmissions (room : Room) (subs : List (String × String)) : Room :=
  subs.foldl stepKill room

/-- One kill submission never grows the mafia-vote list past one entry. -/
theorem stepKill_le (room : Room) (s : String × String) :
    (stepKill room s).mafiaVotes.length ≤ max 1 room.mafiaVotes.length := by
  unfold stepKill
  cases hstep : nightActionHandler room s.1 NightActionKind.kill s.2 with
  | error e => exact le_max_right 1 _ |>.trans (le_refl _)
  | ok r1 =>
    rcases killVotes_cases room s.1 s.2 r1 hstep with ⟨hnil, hv⟩ | ⟨hnn, hv⟩
    · rw [hv, hnil]
      simp
    · rw [hv]
      exact le_max_right 1 _

/-- C7 counterexample: in `roomTwoMafia` both living mafia submit accepted
kill votes, yet the vote list holds a single entry (the claim predicts two:
one per member). -/
theorem c7_counterexample :
    ((nightActionHandler roomTwoMafia "M1" NightActionKind.kill "C1").toOption.bind
      (fun r1 => (nightActionHandler r1 "M2" NightActionKind.kill "C2").toOption)).map
        (fun r2 => r2.mafiaVotes) = some [("M1", "C1")] ∧
    ¬ ((nightActionHandler roomTwoMafia "M1" NightActionKind.kill "C1").toOption.bind
      (fun r1 => (nightActionHandler r1 "M2" NightActionKind.kill "C2").toOption)).map
        (fun r2 => r2.mafiaVotes.length) = some 2 := by
  exact ⟨by decide, by decide⟩

/-- C7 (amended): only the first kill vote of the whole room is appended to
the mafia-vote list; a later accepted kill vote from another living mafia
member leaves the list unchanged; a resubmission by a member who already
acted is rejected outright; hence the list never grows past one entry when
starting from an empty night. -/
theorem c7_first_vote_only (room : Room) (senderId targetId : String) :
    (∀ r', nightActionHandler room senderId NightActionKind.kill targetId = Except.ok r' →
      (room.mafiaVotes = [] → r'.mafiaVotes = [(senderId, targetId)]) ∧
      (¬ room.mafiaVotes = [] → r'.mafiaVotes = room.mafiaVotes)) ∧
    (room.phase = Phase.night → ∀ pl, findPlayer room senderId = some pl →
      pl.alive = true → senderId ∈ room.nightActionsSubmitted →
      ∀ act tgt, nightActionHandler room senderId act tgt =
        Except.error "You already submitted a night action.") ∧
    (∀ subs : List (String × String),
      (applyKillSubmissions room subs).mafiaVotes.length ≤
        max 1 room.mafiaVotes.length) := by
  refine ⟨?_, ?_, ?_⟩
  · intro r' h
    rcases killVotes_cases room senderId targetId r' h with ⟨hnil, hv⟩ | ⟨hnn, hv⟩
    · exact ⟨fun _ => by simp [hv, hnil], fun hc => absurd hnil hc⟩
    · exact ⟨fun hc => absurd hc hnn, fun _ => hv⟩
  · intro hp pl hf hal hmem act tgt
    simp [nightActionHandler, hp, hf, hal, hmem]
  · intro subs
    induction subs generalizing room with
    | nil => exact le_max_right 1 _
    | cons s subs ih =>
      have h1 := ih (stepKill room s)
      have h2 := stepKill_le room s
      simp only [applyKillSubmissions, List.foldl_cons] at h1 ⊢
      omega

end WLT

namespace WLT

/-- `roomTwoMafia` after M1's accepted kill vote on C1. -/
def roomTwoMafiaAfterM1 : Room :=
  { roomTwoMafia with mafiaVotes := [("M1", "C1")], nightActionsSubmitted := ["M1"] }

/-- Concrete run of `c7_first_vote_only`: the first kill vote lands in the
list, a resubmission by the same mafia member is rejected, and a full
submission sequence leaves at most one recorded vote. -/
theorem c7_first_vote_only_witness :
    roomTwoMafiaAfterM1.mafiaVotes = [("M1", "C1")] ∧
    nightActionHandler roomTwoMafiaAfterM1 "M1" NightActionKind.kill "C2" =
      Except.error "You already submitted a night action." ∧
    (applyKillSubmissions roomTwoMafia [("M1", "C1"), ("M2", "C2")]).mafiaVotes.length ≤
      max 1 roomTwoMafia.mafiaVotes.length := by
  refine ⟨((c7_first_vote_only roomTwoMafia "M1" "C1").1 roomTwoMafiaAfterM1 (by decide)).1 rfl,
    (c7_first_vote_only roomTwoMafiaAfterM1 "M1" "C1").2.1 rfl
      (mkTestPlayer "M1" Role.mafia true) (by decide) rfl (by decide)
      NightActionKind.kill "C2",
    (c7_first_vote_only roomTwoMafia "M1" "C1").2.2 [("M1", "C1"), ("M2", "C2")]⟩

end WLT

namespace WLT

/-- C6: the night resolves early exactly when every living mafia member has a
recorded kill vote, the doctor-save target is set when a living doctor
exists, and the investigation target is set when a living detective exists
(every reachable night-phase room has at least one living mafia, which the
hypothesis records); and in the night phase the early-resolution check fires
exactly on that condition. -/
theorem c6_night_early_resolution (room : Room) (k : Nat)
    (h : ∃ p ∈ getAlivePlayers room, p.role = Role.mafia) :
    (nightComplete room = true ↔
      ((∀ p ∈ getAlivePlayers room, p.role = Role.mafia →
          p.id ∈ room.mafiaVotes.map Prod.fst) ∧
        ((∃ p ∈ getAlivePlayers room, p.role = Role.doctor) →
          room.doctorSave.isSome = true) ∧
        ((∃ p ∈ getAlivePlayers room, p.role = Role.detective) →
          room.detectiveTarget.isSome = true))) ∧
    (room.phase = Phase.night →
      ((checkNightActionsComplete room k).2 = true ↔ nightComplete room = true)) := by
  constructor
  · have hmem : 0 < ((getAlivePlayers room).filter (fun p => p.role = Role.mafia)).length := by
      obtain ⟨p, hp, hr⟩ := h
      have hmf : p ∈ (getAlivePlayers room).filter (fun p => p.role = Role.mafia) :=
        List.mem_filter.mpr ⟨hp, by simp [hr]⟩
      exact List.length_pos.mpr (List.ne_nil_of_mem hmf)
    simp only [nightComplete, Bool.and_eq_true, decide_eq_true_eq, List.all_eq_true,
      List.any_eq_true, List.mem_filter, List.elem_iff, decide_eq_true_eq]
    constructor
    · rintro ⟨⟨⟨hpos, hall⟩, hdoc⟩, hdet⟩
      refine ⟨fun p hp hr => ?_, fun hex => ?_, fun hex => ?_⟩
      · simpa [List.elem_iff] using hall p ⟨hp, hr⟩
      · rw [if_pos hex] at hdoc
        exact hdoc
      · rw [if_pos hex] at hdet
        exact hdet
    · rintro ⟨hall, hdoc, hdet⟩
      refine ⟨⟨⟨hmem, fun p hp => ?_⟩, ?_⟩, ?_⟩
      · simpa [List.elem_iff] using hall p hp.1 hp.2
      · split_ifs with hc
        · exact hdoc hc
        · rfl
      · split_ifs with hc
        · exact hdet hc
        · rfl
  · intro hp
    simp only [checkNightActionsComplete, hp, true_and]
    split_ifs with hc <;> simp [hc]

/-- A five-player night room where every required night action is in. -/
def roomNightReady : Room :=
  { mkTestRoom
      [mkTestPlayer "M1" Role.mafia true, mkTestPlayer "D1" Role.doctor true,
       mkTestPlayer "T1" Role.detective true, mkTestPlayer "C1" Role.citizen true,
       mkTestPlayer "C2" Role.citizen true]
      Phase.night with
    mafiaVotes := [("M1", "C1")], doctorSave := some "C2",
    detectiveTarget := some "M1", nightActionsSubmitted := ["M1", "D1", "T1"] }

/-- Concrete run of `c6_night_early_resolution`: with the lone living mafia's
vote recorded and the doctor and detective targets set, the completeness
check succeeds and the early-resolution path fires. -/
theorem c6_night_early_resolution_witness :
    nightComplete roomNightReady = true ∧
    (checkNightActionsComplete roomNightReady 0).2 = true := by
  have h := c6_night_early_resolution roomNightReady 0
    ⟨mkTestPlayer "M1" Role.mafia true, by decide, rfl⟩
  exact ⟨h.1.mpr (by decide), (h.2 rfl).mpr (h.1.mpr (by decide))⟩

end WLT

namespace WLT

/-- C9: a chat message is delivered only if the sender holds a player record
under the requesting socket id (the handler's connectivity check), the sender
is alive when posting to the global channel, and the mafia channel is used
only by a mafia-role sender while more than one mafia is alive; each of the
listed violations is rejected with the room state unchanged. -/
theorem c9_chat_gate (room : Room) (senderId : String) (channel : ChatChannel)
    (text : String) (now : Nat) :
    ((chatMessageHandler room senderId channel text now).2 = true →
      ∃ p, findPlayer room senderId = some p ∧
        (channel = ChatChannel.global → p.alive = true) ∧
        (channel = ChatChannel.mafia →
          p.role = Role.mafia ∧ 1 < (getAliveMafia room).length)) ∧
    (∀ p, findPlayer room senderId = some p → p.alive = false →
      channel = ChatChannel.global →
      chatMessageHandler room senderId channel text now = (room, false)) ∧
    (∀ p, findPlayer room senderId = some p → ¬ p.role = Role.mafia →
      channel = ChatChannel.mafia →
      chatMessageHandler room senderId channel text now = (room, false)) ∧
    (∀ p, findPlayer room senderId = some p → p.role = Role.mafia →
      (getAliveMafia room).length ≤ 1 → channel = ChatChannel.mafia →
      chatMessageHandler room senderId channel text now = (room, false)) ∧
    (findPlayer room senderId = none →
      chatMessageHandler room senderId channel text now = (room, false)) := by
  refine ⟨?_, ?_, ?_, ?_, ?_⟩
  · intro hacc
    unfold chatMessageHandler at hacc
    split at hacc
    · simp at hacc
    rename_i p hf
    by_cases h1 : ¬ p.alive = true ∧ channel = ChatChannel.global
    · rw [if_pos h1] at hacc
      simp at hacc
    rw [if_neg h1] at hacc
    by_cases h2 : channel = ChatChannel.mafia ∧ ¬ p.role = Role.mafia
    · rw [if_pos h2] at hacc
      simp at hacc
    rw [if_neg h2] at hacc
    by_cases h3 : channel = ChatChannel.mafia ∧ (getAliveMafia room).length ≤ 1
    · rw [if_pos h3] at hacc
      simp at hacc
    refine ⟨p, hf, fun hg => ?_, fun hm => ?_⟩
    · by_contra halive
      exact h1 ⟨by simpa using halive, hg⟩
    · refine ⟨?_, ?_⟩
      · by_contra hrole
        exact h2 ⟨hm, hrole⟩
      · by_contra hle
        exact h3 ⟨hm, by omega⟩
  · intro p hf halive hch
    simp [chatMessageHandler, hf, halive, hch]
  · intro p hf hrole hch
    simp [chatMessageHandler, hf, hrole, hch]
  · intro p hf hrole hle hch
    simp [chatMessageHandler, hf, hrole, hle, hch]
  · intro hf
    simp [chatMessageHandler, hf]

/-- A day-phase room with two living mafia, a living citizen and a dead
citizen, for exercising the chat gate. -/
def roomChat : Room :=
  mkTestRoom
    [mkTestPlayer "M1" Role.mafia true, mkTestPlayer "M2" Role.mafia true,
     mkTestPlayer "C1" Role.citizen true, mkTestPlayer "E1" Role.citizen false]
    Phase.day

/-- `roomChat` with the second mafia member dead (a lone surviving mafia). -/
def roomChatLone : Room :=
  mkTestRoom
    [mkTestPlayer "M1" Role.mafia true, mkTestPlayer "M2" Role.mafia false,
     mkTestPlayer "C1" Role.citizen true, mkTestPlayer "E1" Role.citizen false]
    Phase.day

/-- Concrete run of `c9_chat_gate`: a dead sender on the global channel, a
citizen on the mafia channel, a lone mafia on the mafia channel, and an
unknown socket are all rejected with the room unchanged. -/
theorem c9_chat_gate_witness :
    chatMessageHandler roomChat "E1" ChatChannel.global "hi" 0 = (roomChat, false) ∧
    chatMessageHandler roomChat "C1" ChatChannel.mafia "hi" 0 = (roomChat, false) ∧
    chatMessageHandler roomChatLone "M1" ChatChannel.mafia "hi" 0 = (roomChatLone, false) ∧
    chatMessageHandler roomChat "ZZ" ChatChannel.global "hi" 0 = (roomChat, false) := by
  refine ⟨(c9_chat_gate roomChat "E1" ChatChannel.global "hi" 0).2.1
      (mkTestPlayer "E1" Role.citizen false) (by decide) rfl rfl,
    (c9_chat_gate roomChat "C1" ChatChannel.mafia "hi" 0).2.2.1
      (mkTestPlayer "C1" Role.citizen true) (by decide) (by decide) rfl,
    (c9_chat_gate roomChatLone "M1" ChatChannel.mafia "hi" 0).2.2.2.1
      (mkTestPlayer "M1" Role.mafia true) (by decide) rfl (by decide) rfl,
    (c9_chat_gate roomChat "ZZ" ChatChannel.global "hi" 0).2.2.2.2 (by decide)⟩

end WLT

namespace WLT

/-- `find?` over an append whose first part contains no match. -/
theorem find?_append_of_none {α : Type} (l1 l2 : List α) (p : α → Bool)
    (h : l1.find? p = none) : (l1 ++ l2).find? p = l2.find? p := by
  induction l1 with
  | nil => rfl
  | cons a l ih =>
    cases hpa : p a with
    | true => simp [List.find?_cons, hpa] at h
    | false =>
      simp only [List.find?_cons, hpa] at h
      simpa [List.find?_cons, hpa] using ih h

/-- Looking a player up by session id returns exactly the member holding that
session id, when it is unique in the roster. -/
theorem find?_by_sessionId (l : List Player) (p : Player) (hp : p ∈ l)
    (huniq : ∀ q ∈ l, q.sessionId = p.sessionId → q = p) :
    l.find? (fun q => q.sessionId = p.sessionId) = some p := by
  induction l with
  | nil => cases hp
  | cons a l ih =>
    rcases List.mem_cons.mp hp with rfl | hmem
    · simp [List.find?_cons]
    · by_cases ha : a.sessionId = p.sessionId
      · rw [huniq a (List.mem_cons_self a l) ha]
        simp [List.find?_cons]
      · simp only [List.find?_cons, decide_eq_true_eq, ha, decide_False]
        exact ih hmem (fun q hq => huniq q (List.mem_cons_of_mem a hq))

/-- Looking a player up by id returns exactly the member holding that id,
when the roster ids are pairwise distinct. -/
theorem find?_by_id (l : List Player) (p : Player) (hp : p ∈ l)
    (hnd : (l.map Player.id).Nodup) :
    l.find? (fun q => q.id = p.id) = some p := by
  induction l with
  | nil => cases hp
  | cons a l ih =>
    simp only [List.map_cons, List.nodup_cons, List.mem_map] at hnd
    rcases List.mem_cons.mp hp with rfl | hmem
    · simp [List.find?_cons]
    · have ha : ¬ a.id = p.id := fun he => hnd.1 ⟨p, hmem, he.symm⟩
      simp only [List.find?_cons, decide_eq_true_eq, ha, decide_False]
      exact ih hmem hnd.2

end WLT

namespace WLT

/-- C8: a reconnect carrying the stable session id of a disconnected player
within the window restores the very same record — role, alive flag, name,
session id — under the new socket id, restores the host seat when that player
held it, and leaves every other player and every other room field untouched;
past the 30-second handler window the reconnect is rejected, and in the lobby
the 15-second grace expiry removes the seat so that a later reconnect is
rejected as an unknown session.  The grace window is 15s in the lobby and 30s
otherwise (`gracePeriodMs`). -/
theorem c8_reconnect (room : Room) (p : Player) (t : Nat) (newId : String) (now : Nat)
    (hp : p ∈ room.players)
    (huniq : ∀ q ∈ room.players, q.sessionId = p.sessionId → q = p)
    (hnd : (room.players.map Player.id).Nodup)
    (hnew : ∀ q ∈ room.players, ¬ q.id = newId)
    (hdisc : p.disconnectedAt = some t) :
    gracePeriodMs room = (if room.phase = Phase.lobby then 15000 else 30000) ∧
    (now - t ≤ 30000 →
      reconnectPlayer room p.sessionId newId now =
        Except.ok (transferPlayer room p newId) ∧
      findPlayer (transferPlayer room p newId) newId =
        some { p with id := newId, connected := true, disconnectedAt := none } ∧
      (transferPlayer room p newId).hostId =
        (if room.hostId = p.id then newId else room.hostId) ∧
      (transferPlayer room p newId).players.filter (fun q => ¬ q.id = newId) =
        room.players.filter (fun q => ¬ q.id = p.id) ∧
      (transferPlayer room p newId).phase = room.phase ∧
      (transferPlayer room p newId).round = room.round ∧
      (transferPlayer room p newId).votes = room.votes ∧
      (transferPlayer room p newId).mafiaVotes = room.mafiaVotes ∧
      (transferPlayer room p newId).doctorSave = room.doctorSave ∧
      (transferPlayer room p newId).started = room.started) ∧
    (30000 < now - t →
      reconnectPlayer room p.sessionId newId now =
        Except.error "Reconnect window expired.") ∧
    (room.phase = Phase.lobby → p.connected = false →
      ∀ r2 now2, graceExpire room p.id = some r2 →
        reconnectPlayer r2 p.sessionId newId now2 =
          Except.error "Session not found.") := by
  have hfs : room.players.find? (fun q => q.sessionId = p.sessionId) = some p :=
    find?_by_sessionId room.players p hp huniq
  refine ⟨rfl, ?_, ?_, ?_⟩
  · intro hw
    have hok : reconnectPlayer room p.sessionId newId now =
        Except.ok (transferPlayer room p newId) := by
      unfold reconnectPlayer
      rw [hfs]
      dsimp only
      rw [hdisc]
      dsimp only
      rw [if_neg (by omega)]
    refine ⟨hok, ?_, rfl, ?_, rfl, rfl, rfl, rfl, rfl, rfl⟩
    · unfold findPlayer transferPlayer
      dsimp only
      rw [find?_append_of_none]
      · simp [List.find?_cons]
      · apply List.find?_eq_none.mpr
        intro q hq
        have hqm : q ∈ room.players := List.mem_of_mem_filter hq
        simpa using hnew q hqm
    · unfold transferPlayer
      dsimp only
      rw [List.filter_append]
      have h2 : List.filter (fun q => ¬ q.id = newId)
          [{ p with id := newId, connected := true, disconnectedAt := none }] = [] := by
        simp
      rw [h2, List.append_nil]
      apply List.filter_eq_self.mpr
      intro q hq
      have hqm : q ∈ room.players := List.mem_of_mem_filter hq
      simpa using hnew q hqm
  · intro hw
    unfold reconnectPlayer
    rw [hfs]
    dsimp only
    rw [hdisc]
    dsimp only
    rw [if_pos (by omega)]
  · intro hlob hconn r2 now2 hge
    have hfi : room.players.find? (fun q => q.id = p.id) = some p :=
      find?_by_id room.players p hp hnd
    unfold graceExpire findPlayer at hge
    rw [hfi] at hge
    dsimp only at hge
    rw [hconn] at hge
    rw [if_neg (by simp)] at hge
    rw [if_pos hlob] at hge
    split at hge
    · exact Option.noConfusion hge
    · cases hge
      unfold reconnectPlayer
      dsimp only
      have hnone : (room.players.filter (fun q => ¬ q.id = p.id)).find?
          (fun q => q.sessionId = p.sessionId) = none := by
        apply List.find?_eq_none.mpr
        intro q hq
        have hqm : q ∈ room.players := List.mem_of_mem_filter hq
        have hqid : ¬ q.id = p.id := by simpa using List.of_mem_filter hq
        simp only [decide_eq_true_eq]
        intro hsid
        exact hqid (congrArg Player.id (huniq q hqm hsid))
      rw [hnone]

end WLT

namespace WLT

/-- The disconnected player B record sitting in `reconRoomBefore`. -/
def playerBDisc : Player :=
  { mkTestPlayer "B" Role.citizen true with connected := false, disconnectedAt := some 1000 }

/-- `reconRoomBefore` after the lobby grace period removed player B. -/
def reconRoomExpired : Room :=
  { reconRoomBefore with
    players := reconRoomBefore.players.filter (fun q => ¬ q.id = "B") }

/-- Concrete run of `c8_reconnect`: B reconnects 19 seconds after the
disconnect and the record moves intact to socket Z; at 39 seconds the window
check rejects; after the lobby grace expiry the session is gone. -/
theorem c8_reconnect_witness :
    reconnectPlayer reconRoomBefore playerBDisc.sessionId "Z" 20000 =
      Except.ok (transferPlayer reconRoomBefore playerBDisc "Z") ∧
    findPlayer (transferPlayer reconRoomBefore playerBDisc "Z") "Z" =
      some { playerBDisc with id := "Z", connected := true, disconnectedAt := none } ∧
    reconnectPlayer reconRoomBefore playerBDisc.sessionId "Z" 40000 =
      Except.error "Reconnect window expired." ∧
    reconnectPlayer reconRoomExpired playerBDisc.sessionId "Z" 20000 =
      Except.error "Session not found." := by
  have h := c8_reconnect reconRoomBefore playerBDisc 1000 "Z" 20000
    (by decide) (by decide) (by decide) (by decide) rfl
  have h40 := c8_reconnect reconRoomBefore playerBDisc 1000 "Z" 40000
    (by decide) (by decide) (by decide) (by decide) rfl
  exact ⟨(h.2.1 (by omega)).1, (h.2.1 (by omega)).2.1, h40.2.2.1 (by omega),
    h.2.2.2 rfl rfl reconRoomExpired 20000 (by decide)⟩

end WLT

namespace WLT

/-- Looking up the kill target after the alive-flag flip returns the flipped
record (the flip map preserves every player's id). -/
theorem find?_map_flip (l : List Player) (tgt : String) :
    (l.map (fun q => if q.id = tgt then { q with alive := false } else q)).find?
      (fun q => q.id = tgt) =
    (l.find? (fun q => q.id = tgt)).map
      (fun q => if q.id = tgt then { q with alive := false } else q) := by
  induction l with
  | nil => rfl
  | cons a l ih =>
    by_cases ha : a.id = tgt
    · simp [List.find?_cons, ha]
    · simp [List.find?_cons, ha, ih]

/-- C2: night resolution against the tallied mafia target.  When the chosen
target equals the doctor save, the outcome is `saved` and nobody's alive flag
changes; when they differ and the target is alive, the outcome is `killed`
and exactly that flag flips; when they differ and the target is already dead,
the outcome is `no_kill` and the roster is untouched; and with zero mafia
votes the outcome is `no_kill` and the roster is untouched. -/
theorem c2_night_resolution (room : Room) (k : Nat) (hphase : room.phase = Phase.night) :
    (∀ tgt, nightTargetChoice room k = some tgt → room.doctorSave = some tgt →
      (resolveNight room k).outcome = NightOutcome.saved ∧
      (resolveNightPhaseStep room k).players = room.players) ∧
    (∀ tgt p, nightTargetChoice room k = some tgt → ¬ room.doctorSave = some tgt →
      findPlayer room tgt = some p → p.alive = true →
      (resolveNight room k).outcome = NightOutcome.killed ∧
      findPlayer (resolveNightPhaseStep room k) tgt = some { p with alive := false }) ∧
    (∀ tgt p, nightTargetChoice room k = some tgt → ¬ room.doctorSave = some tgt →
      findPlayer room tgt = some p → p.alive = false →
      (resolveNight room k).outcome = NightOutcome.no_kill ∧
      (resolveNightPhaseStep room k).players = room.players) ∧
    (room.mafiaVotes = [] →
      (resolveNight room k).outcome = NightOutcome.no_kill ∧
      (resolveNightPhaseStep room k).players = room.players) := by
  refine ⟨?_, ?_, ?_, ?_⟩
  · intro tgt hc hd
    have hres : resolveNight room k = ⟨some tgt, true, NightOutcome.saved⟩ := by
      unfold resolveNight
      rw [hc]
      dsimp only
      rw [if_pos hd]
    refine ⟨by rw [hres], ?_⟩
    simp only [resolveNightPhaseStep, hres]
    rw [if_neg (not_not_intro hphase)]
    split <;> rfl
  · intro tgt p hc hd hf hal
    have hres : resolveNight room k = ⟨some tgt, false, NightOutcome.killed⟩ := by
      unfold resolveNight
      rw [hc]
      dsimp only
      rw [if_neg hd]
      rw [show findPlayer room tgt = some p from hf]
      dsimp only
      rw [if_pos hal]
    have hptgt : p.id = tgt := by
      have := List.find?_some hf
      simpa using this
    have hfind : (room.players.map
        (fun q => if q.id = tgt then { q with alive := false } else q)).find?
          (fun q => q.id = tgt) = some { p with alive := false } := by
      rw [find?_map_flip]
      unfold findPlayer at hf
      rw [hf]
      simp [hptgt]
    refine ⟨by rw [hres], ?_⟩
    simp only [resolveNightPhaseStep, hres]
    rw [if_neg (not_not_intro hphase)]
    split <;> simpa [findPlayer] using hfind
  · intro tgt p hc hd hf hal
    have hres : resolveNight room k = ⟨none, false, NightOutcome.no_kill⟩ := by
      unfold resolveNight
      rw [hc]
      dsimp only
      rw [if_neg hd]
      rw [show findPlayer room tgt = some p from hf]
      dsimp only
      rw [if_neg (by simp [hal])]
    refine ⟨by rw [hres], ?_⟩
    simp only [resolveNightPhaseStep, hres]
    rw [if_neg (not_not_intro hphase)]
    split <;> rfl
  · intro hmv
    have hc : nightTargetChoice room k = none := by
      unfold nightTargetChoice
      rw [hmv]
      rfl
    have hres : resolveNight room k = ⟨none, false, NightOutcome.no_kill⟩ := by
      unfold resolveNight
      rw [hc]
    refine ⟨by rw [hres], ?_⟩
    simp only [resolveNightPhaseStep, hres]
    rw [if_neg (not_not_intro hphase)]
    split <;> rfl

end WLT

namespace WLT

/-- Night room where the single mafia vote targets B and the doctor saves B. -/
def nightRoomSaved : Room :=
  { mkTestRoom
      [mkTestPlayer "A" Role.mafia true, mkTestPlayer "B" Role.citizen true,
       mkTestPlayer "C" Role.doctor true, mkTestPlayer "D" Role.citizen true,
       mkTestPlayer "E" Role.citizen true]
      Phase.night with
    mafiaVotes := [("A", "B")], doctorSave := some "B" }

/-- Night room where the single mafia vote targets B and the doctor saves C. -/
def nightRoomKilled : Room :=
  { nightRoomSaved with doctorSave := some "C" }

/-- Night room whose kill target B is already dead. -/
def nightRoomDeadTarget : Room :=
  { mkTestRoom
      [mkTestPlayer "A" Role.mafia true, mkTestPlayer "B" Role.citizen false,
       mkTestPlayer "C" Role.doctor true, mkTestPlayer "D" Role.citizen true,
       mkTestPlayer "E" Role.citizen true]
      Phase.night with
    mafiaVotes := [("A", "B")], doctorSave := some "C" }

/-- Night room with no mafia vote cast. -/
def nightRoomNoVotes : Room :=
  { nightRoomSaved with mafiaVotes := [], doctorSave := none }

/-- Concrete run of `c2_night_resolution`: matching save yields `saved` and
no death; a differing save on a living target yields `killed` and flips
exactly that flag; a dead target and an empty vote list both yield
`no_kill`. -/
theorem c2_night_resolution_witness :
    (resolveNight nightRoomSaved 0).outcome = NightOutcome.saved ∧
    (resolveNightPhaseStep nightRoomSaved 0).players = nightRoomSaved.players ∧
    (resolveNight nightRoomKilled 0).outcome = NightOutcome.killed ∧
    findPlayer (resolveNightPhaseStep nightRoomKilled 0) "B" =
      some { mkTestPlayer "B" Role.citizen true with alive := false } ∧
    (resolveNight nightRoomDeadTarget 0).outcome = NightOutcome.no_kill ∧
    (resolveNightPhaseStep nightRoomDeadTarget 0).players = nightRoomDeadTarget.players ∧
    (resolveNight nightRoomNoVotes 0).outcome = NightOutcome.no_kill ∧
    (resolveNightPhaseStep nightRoomNoVotes 0).players = nightRoomNoVotes.players := by
  have h1 := c2_night_resolution nightRoomSaved 0 rfl
  have h2 := c2_night_resolution nightRoomKilled 0 rfl
  have h3 := c2_night_resolution nightRoomDeadTarget 0 rfl
  have h4 := c2_night_resolution nightRoomNoVotes 0 rfl
  exact ⟨(h1.1 "B" (by decide) rfl).1, (h1.1 "B" (by decide) rfl).2,
    (h2.2.1 "B" (mkTestPlayer "B" Role.citizen true) (by decide) (by decide)
      (by decide) rfl).1,
    (h2.2.1 "B" (mkTestPlayer "B" Role.citizen true) (by decide) (by decide)
      (by decide) rfl).2,
    (h3.2.2.1 "B" (mkTestPlayer "B" Role.citizen false) (by decide) (by decide)
      (by decide) rfl).1,
    (h3.2.2.1 "B" (mkTestPlayer "B" Role.citizen false) (by decide) (by decide)
      (by decide) rfl).2,
    (h4.2.2.2 rfl).1, (h4.2.2.2 rfl).2⟩

end WLT

namespace WLT

/-- A five-player vote-phase room: A is the lone mafia, everyone alive. -/
def voteRoomTrace : Room :=
  mkTestRoom
    [mkTestPlayer "A" Role.mafia true, mkTestPlayer "B" Role.citizen true,
     mkTestPlayer "C" Role.doctor true, mkTestPlayer "D" Role.citizen true,
     mkTestPlayer "E" Role.citizen true]
    Phase.vote

/-- Six day-vote events: all five living players vote (B reaches the strict
top and is lynched by the early resolution the fifth vote triggers), then A
revotes onto C inside the post-resolution window. -/
def voteEvents : List (String × String) :=
  [("A", "B"), ("B", "C"), ("C", "B"), ("D", "B"), ("E", "C"), ("A", "C")]

/-- The room after the first five vote events. -/
def voteTraceAfterFive : Room :=
  (voteEvents.take 5).foldl (fun r e => dayVoteHandler r e.1 e.2) voteRoomTrace

/-- The room after all six vote events. -/
def voteTraceResult : Room :=
  voteEvents.foldl (fun r e => dayVoteHandler r e.1 e.2) voteRoomTrace

/-- C1 failing trace: after the five legitimate votes the vote phase has
resolved early once (B lynched, game not over, phase still `vote` until the
3-second next-night timer fires); A's revote in that window passes every
handler guard, reaches the vote count threshold again, and triggers a second
`resolveVotePhase` in the same vote phase, lynching C as well — a lynch is
double-applied even though each individual path did cancel the pending
timer. -/
theorem c1_double_resolution :
    (voteTraceAfterFive.players.filter (fun p => p.alive = false)).map Player.id = ["B"] ∧
    voteTraceAfterFive.phase = Phase.vote ∧
    voteTraceResult = dayVoteHandler voteTraceAfterFive "A" "C" ∧
    (voteTraceResult.players.filter (fun p => p.alive = false)).map Player.id = ["B", "C"] ∧
    voteTraceResult.phase = Phase.vote := by
  exact ⟨by decide, by decide, by decide, by decide, by decide⟩

end WLT

namespace WLT

/-- The mafia block never fills a roster of two or more. -/
theorem mafiaHeadCount_lt (n : Nat) (h : 2 ≤ n) : mafiaHeadCount n < n := by
  unfold mafiaHeadCount
  omega

/-- Mafia block plus the doctor never fill a roster of five or more. -/
theorem mafiaHeadCount_add_lt (n : Nat) (h : 5 ≤ n) : mafiaHeadCount n + 1 < n := by
  unfold mafiaHeadCount
  omega

/-- Role counts of the dealt sequence for a legal roster (`N ≥ 4`). -/
theorem rolesFor_spec (n : Nat) (h : 4 ≤ n) :
    (rolesFor n).length = n ∧
    (rolesFor n).count Role.mafia = mafiaHeadCount n ∧
    (rolesFor n).count Role.doctor = 1 ∧
    (rolesFor n).count Role.detective = (if 4 < n then 1 else 0) ∧
    (rolesFor n).count Role.citizen =
      n - mafiaHeadCount n - 1 - (if 4 < n then 1 else 0) := by
  have hm : mafiaHeadCount n < n := mafiaHeadCount_lt n (by omega)
  have hdoc : doctorSlots n = 1 := by
    unfold doctorSlots
    rw [if_pos hm]
  have hdet : detectiveSlots n = (if 4 < n then 1 else 0) := by
    unfold detectiveSlots
    by_cases h4 : 4 < n
    · rw [if_pos ⟨h4, by rw [hdoc]; exact mafiaHeadCount_add_lt n (by omega)⟩, if_pos h4]
    · rw [if_neg (by tauto), if_neg h4]
  have hm1 : 4 < n → mafiaHeadCount n + 1 < n := fun h4 => mafiaHeadCount_add_lt n (by omega)
  unfold rolesFor citizenSlots
  rw [hdoc, hdet]
  split_ifs with h4 <;>
    [refine ⟨?_, ?_, ?_, ?_, ?_⟩; refine ⟨?_, ?_, ?_, ?_, ?_⟩] <;>
    · simp [List.count_append, List.count_replicate]
      try omega

/-- C5: for a roster of `N ≥ 4` distinct identifiers dealt in any shuffled
order, every player receives exactly one role, with exactly
`max(1, ⌊N · 0.33⌋)` mafia, exactly one doctor, one detective exactly when
`N > 4`, and citizens filling the remainder. -/
theorem c5_assign_roles (playerIds shuffled : List String)
    (hperm : shuffled.Perm playerIds) (h4 : 4 ≤ playerIds.length)
    (hnd : playerIds.Nodup) :
    ((assignRoles shuffled).map Prod.fst).Perm playerIds ∧
    ((assignRoles shuffled).map Prod.fst).Nodup ∧
    ((assignRoles shuffled).map Prod.snd).count Role.mafia =
      max 1 (playerIds.length * 33 / 100) ∧
    ((assignRoles shuffled).map Prod.snd).count Role.doctor = 1 ∧
    ((assignRoles shuffled).map Prod.snd).count Role.detective =
      (if 4 < playerIds.length then 1 else 0) ∧
    ((assignRoles shuffled).map Prod.snd).count Role.citizen =
      playerIds.length - max 1 (playerIds.length * 33 / 100) - 1 -
        (if 4 < playerIds.length then 1 else 0) := by
  have hlen : shuffled.length = playerIds.length := hperm.length_eq
  have hspec := rolesFor_spec shuffled.length (by omega)
  have hfst : (assignRoles shuffled).map Prod.fst = shuffled := by
    unfold assignRoles
    exact List.map_fst_zip _ _ (by rw [hspec.1])
  have hsnd : (assignRoles shuffled).map Prod.snd = rolesFor shuffled.length := by
    unfold assignRoles
    exact List.map_snd_zip _ _ (by rw [hspec.1])
  rw [hfst, hsnd]
  have hmc : mafiaHeadCount shuffled.length = max 1 (playerIds.length * 33 / 100) := by
    unfold mafiaHeadCount
    rw [hlen]
  refine ⟨hperm, hperm.nodup_iff.mpr hnd, ?_, hspec.2.2.1, ?_, ?_⟩
  · rw [hspec.2.1, hmc]
  · rw [hspec.2.2.2.1, hlen]
  · rw [hspec.2.2.2.2, hmc, hlen]

/-- Concrete run of `c5_assign_roles` on five players: one mafia, one doctor,
one detective, two citizens, keys intact. -/
theorem c5_assign_roles_witness :
    ((assignRoles ["P1", "P2", "P3", "P4", "P5"]).map Prod.fst).Nodup ∧
    ((assignRoles ["P1", "P2", "P3", "P4", "P5"]).map Prod.snd).count Role.mafia =
      max 1 (5 * 33 / 100) ∧
    ((assignRoles ["P1", "P2", "P3", "P4", "P5"]).map Prod.snd).count Role.doctor = 1 ∧
    ((assignRoles ["P1", "P2", "P3", "P4", "P5"]).map Prod.snd).count Role.detective = 1 := by
  have h := c5_assign_roles ["P1", "P2", "P3", "P4", "P5"] ["P1", "P2", "P3", "P4", "P5"]
    (List.Perm.refl _) (by decide) (by decide)
  refine ⟨h.2.1, h.2.2.1, h.2.2.2.1, ?_⟩
  have := h.2.2.2.2.1
  simpa using this

end WLT

namespace WLT

/-- Number of votes cast for a given target. -/
def countTgt (votes : List (String × String)) (t : String) : Nat :=
  (votes.map Prod.snd).count t

/-- The key column of a tally. -/
def keysOf (t : List (String × Nat)) : List String :=
  t.map Prod.fst

/-- `lookupC` on a cons cell. -/
theorem lookupC_cons (e : String × Nat) (t : List (String × Nat)) (k : String) :
    lookupC (e :: t) k = if e.1 = k then e.2 else lookupC t k := by
  unfold lookupC
  rw [List.find?_cons]
  by_cases h : e.1 = k <;> simp [h]

/-- Bumping a key increments exactly its own count. -/
theorem bump_lookup_same (t : List (String × Nat)) (k : String) :
    lookupC (bump t k) k = lookupC t k + 1 := by
  induction t with
  | nil => simp [bump, lookupC_cons, lookupC]
  | cons e t ih =>
    obtain ⟨k', c⟩ := e
    by_cases h : k' = k
    · simp [bump, h, lookupC_cons]
    · simp [bump, h, lookupC_cons, ih]

/-- Bumping a key leaves every other count unchanged. -/
theorem bump_lookup_other (t : List (String × Nat)) (k j : String) (h : ¬ j = k) :
    lookupC (bump t k) j = lookupC t j := by
  induction t with
  | nil =>
    simp only [bump, lookupC_cons]
    rw [if_neg (fun he => h he.symm)]
  | cons e t ih =>
    obtain ⟨k', c⟩ := e
    by_cases hk : k' = k
    · subst hk
      have hb : bump ((k', c) :: t) k' = (k', c + 1) :: t := by simp [bump]
      rw [hb, lookupC_cons, lookupC_cons]
      rw [if_neg (fun he : k' = j => h he.symm), if_neg (fun he : k' = j => h he.symm)]
    · have hb : bump ((k', c) :: t) k = (k', c) :: bump t k := by simp [bump, hk]
      rw [hb, lookupC_cons, lookupC_cons, ih]

/-- Bumping appends the key at the end exactly when it was absent. -/
theorem bump_keys (t : List (String × Nat)) (k : String) :
    keysOf (bump t k) = if k ∈ keysOf t then keysOf t else keysOf t ++ [k] := by
  induction t with
  | nil => simp [bump, keysOf]
  | cons e t ih =>
    obtain ⟨k', c⟩ := e
    have hkeys : keysOf ((k', c) :: t) = k' :: keysOf t := rfl
    by_cases hk : k' = k
    · subst hk
      have hb : bump ((k', c) :: t) k' = (k', c + 1) :: t := by simp [bump]
      rw [hb, if_pos (by rw [hkeys]; exact List.mem_cons_self _ _)]
      rfl
    · have hkk : ¬ k = k' := fun he => hk he.symm
      have hb : bump ((k', c) :: t) k = (k', c) :: bump t k := by simp [bump, hk]
      rw [hb, show keysOf ((k', c) :: bump t k) = k' :: keysOf (bump t k) from rfl,
        ih, hkeys]
      by_cases hmem : k ∈ keysOf t
      · rw [if_pos hmem, if_pos (by simp [hmem])]
      · rw [if_neg hmem, if_neg (by simp [hmem, hkk])]
        simp

/-- A key is in the bumped tally iff it was there or is the bumped one. -/
theorem bump_keys_mem (t : List (String × Nat)) (k j : String) :
    j ∈ keysOf (bump t k) ↔ j ∈ keysOf t ∨ j = k := by
  rw [bump_keys]
  split_ifs with hm
  · constructor
    · exact Or.inl
    · rintro (h | rfl)
      · exact h
      · exact hm
  · simp

/-- Bumping preserves distinctness of the keys. -/
theorem bump_nodup (t : List (String × Nat)) (k : String)
    (h : (keysOf t).Nodup) : (keysOf (bump t k)).Nodup := by
  rw [bump_keys]
  split_ifs with hm
  · exact h
  · simp [List.nodup_append, h, hm]

end WLT

namespace WLT

/-- Fold invariant of the tally loop: distinct keys, per-key counts, and key
coverage, relative to any accumulator. -/
theorem tally_fold_spec (vs : List (String × String)) :
    ∀ acc : List (String × Nat), (keysOf acc).Nodup →
      (keysOf (vs.foldl (fun t v => bump t v.2) acc)).Nodup ∧
      (∀ j, lookupC (vs.foldl (fun t v => bump t v.2) acc) j =
        lookupC acc j + (vs.map Prod.snd).count j) ∧
      (∀ j, j ∈ keysOf (vs.foldl (fun t v => bump t v.2) acc) ↔
        j ∈ keysOf acc ∨ j ∈ vs.map Prod.snd) := by
  induction vs with
  | nil =>
    intro acc hnd
    exact ⟨hnd, fun j => by simp, fun j => by simp⟩
  | cons v vs ih =>
    intro acc hnd
    have hstep := ih (bump acc v.2) (bump_nodup acc v.2 hnd)
    rw [List.foldl_cons] at *
    refine ⟨hstep.1, fun j => ?_, fun j => ?_⟩
    · rw [hstep.2.1 j]
      by_cases hj : j = v.2
      · subst hj
        rw [bump_lookup_same]
        simp [List.count_cons]
        omega
      · rw [bump_lookup_other acc v.2 j hj]
        simp [List.count_cons, hj]
    · rw [hstep.2.2 j, bump_keys_mem]
      simp only [List.map_cons, List.mem_cons]
      tauto

/-- The tally's keys are pairwise distinct. -/
theorem tally_nodup (votes : List (String × String)) :
    (keysOf (tallyTargets votes)).Nodup :=
  (tally_fold_spec votes [] (by simp [keysOf])).1

/-- The tally's count for every key is the number of votes for it. -/
theorem tally_lookup (votes : List (String × String)) (j : String) :
    lookupC (tallyTargets votes) j = countTgt votes j := by
  have h := (tally_fold_spec votes [] (by simp [keysOf])).2.1 j
  unfold tallyTargets countTgt
  rw [h]
  simp [lookupC]

/-- The tally's keys are exactly the vote targets. -/
theorem tally_keys_mem (votes : List (String × String)) (j : String) :
    j ∈ keysOf (tallyTargets votes) ↔ j ∈ votes.map Prod.snd := by
  have h := (tally_fold_spec votes [] (by simp [keysOf])).2.2 j
  unfold tallyTargets
  rw [h]
  simp [keysOf]

/-- Finding a tally entry by its own key returns it when keys are distinct. -/
theorem find?_tally_entry (t : List (String × Nat)) (e : String × Nat)
    (he : e ∈ t) (hnd : (keysOf t).Nodup) :
    t.find? (fun x => x.1 = e.1) = some e := by
  induction t with
  | nil => cases he
  | cons a t ih =>
    simp only [keysOf, List.map_cons, List.nodup_cons, List.mem_map] at hnd
    rcases List.mem_cons.mp he with rfl | hmem
    · simp [List.find?_cons]
    · have ha : ¬ a.1 = e.1 := fun hae => hnd.1 ⟨e, hmem, hae.symm⟩
      simp only [List.find?_cons, decide_eq_true_eq, ha, decide_False]
      exact ih hmem hnd.2

/-- Every tally entry records the true vote count of its key, at least one. -/
theorem tally_entry_spec (votes : List (String × String)) (e : String × Nat)
    (he : e ∈ tallyTargets votes) :
    e.2 = countTgt votes e.1 ∧ 1 ≤ e.2 ∧ e.1 ∈ votes.map Prod.snd := by
  have hfind := find?_tally_entry (tallyTargets votes) e he (tally_nodup votes)
  have hl : lookupC (tallyTargets votes) e.1 = e.2 := by
    unfold lookupC
    rw [hfind]
  have hcount : e.2 = countTgt votes e.1 := by rw [← hl, tally_lookup]
  have hkey : e.1 ∈ votes.map Prod.snd := by
    rw [← tally_keys_mem]
    exact List.mem_map_of_mem Prod.fst he
  refine ⟨hcount, ?_, hkey⟩
  rw [hcount]
  exact List.count_pos_iff.mpr hkey

/-- Every vote target owns the tally entry carrying its vote count. -/
theorem tally_entry_exists (votes : List (String × String)) (j : String)
    (hj : j ∈ votes.map Prod.snd) :
    (j, countTgt votes j) ∈ tallyTargets votes := by
  have hk : j ∈ keysOf (tallyTargets votes) := (tally_keys_mem votes j).mpr hj
  obtain ⟨e, hem, hfst⟩ := List.mem_map.mp hk
  have hspec := tally_entry_spec votes e hem
  have : e = (j, countTgt votes j) := by
    obtain ⟨e1, e2⟩ := e
    simp only at hfst
    subst hfst
    simp only [Prod.mk.injEq, true_and]
    simpa using hspec.1
  rw [← this]
  exact hem

end WLT

namespace WLT

/-- Folding `max` from an arbitrary base equals maxing the base in at the end. -/
theorem foldr_max_base (l : List Nat) (b : Nat) :
    l.foldr max b = max (l.foldr max 0) b := by
  induction l with
  | nil => simp
  | cons a l ih =>
    simp only [List.foldr_cons, ih]
    omega

/-- `maxC` over an append. -/
theorem maxC_append (t1 t2 : List (String × Nat)) :
    maxC (t1 ++ t2) = max (maxC t1) (maxC t2) := by
  unfold maxC
  rw [List.map_append, List.foldr_append, foldr_max_base]

/-- `maxC` of a singleton. -/
theorem maxC_singleton (e : String × Nat) : maxC [e] = e.2 := by
  simp [maxC]

/-- Every entry's count is bounded by `maxC`. -/
theorem le_maxC (t : List (String × Nat)) (e : String × Nat) (he : e ∈ t) :
    e.2 ≤ maxC t := by
  induction t with
  | nil => cases he
  | cons a t ih =>
    have hcons : maxC (a :: t) = max a.2 (maxC t) := rfl
    rcases List.mem_cons.mp he with rfl | hmem
    · rw [hcons]; omega
    · have := ih hmem
      rw [hcons]; omega

/-- The invariant carried through the `resolveDayVote` scan: the running
count is the maximum of the processed prefix, the running candidate owns an
entry at that maximum, and the tie flag is set exactly when the maximum is
attained at least twice. -/
def ScanInv (p : List (String × Nat)) (s : ScanState) : Prop :=
  s.topCount = maxC p ∧
  (match s.topCandidate with
   | none => p = []
   | some c => (c, maxC p) ∈ p) ∧
  (s.isTied = true ↔ 2 ≤ (p.filter (fun e => e.2 = maxC p)).length)

/-- One scan step preserves the invariant. -/
theorem scanInv_step (p : List (String × Nat)) (e : String × Nat) (s : ScanState)
    (hent : 1 ≤ e.2) (hinv : ScanInv p s) : ScanInv (p ++ [e]) (scanStep s e) := by
  obtain ⟨htop, hcand, htied⟩ := hinv
  have hmax : maxC (p ++ [e]) = max (maxC p) e.2 := by
    rw [maxC_append, maxC_singleton]
  unfold scanStep
  split_ifs with hgt heq
  · -- strictly larger count: new candidate, tie flag reset
    have hmax2 : maxC (p ++ [e]) = e.2 := by omega
    refine ⟨by simpa using hmax2.symm, ?_, ?_⟩
    · show (e.1, maxC (p ++ [e])) ∈ p ++ [e]
      rw [hmax2]
      simp
    · have hfp : p.filter (fun x => x.2 = maxC (p ++ [e])) = [] := by
        apply List.filter_eq_nil_iff.mpr
        intro x hx
        have := le_maxC p x hx
        simp only [decide_eq_true_eq]
        omega
      show (false = true) ↔ _
      rw [List.filter_append, hfp]
      simp [hmax2]
  · -- equal count: tie flag set
    have hne : p ≠ [] := by
      intro hnil
      subst hnil
      simp [maxC] at htop
      omega
    have hmax2 : maxC (p ++ [e]) = maxC p := by omega
    refine ⟨by simpa [hmax2] using htop, ?_, ?_⟩
    · rcases hc : s.topCandidate with _ | c
      · rw [hc] at hcand
        exact absurd hcand hne
      · rw [hc] at hcand
        show (c, maxC (p ++ [e])) ∈ p ++ [e]
        rw [hmax2]
        exact List.mem_append_left _ hcand
    · have hefilter : (p ++ [e]).filter (fun x => x.2 = maxC (p ++ [e])) =
          p.filter (fun x => x.2 = maxC p) ++ [e] := by
        rw [List.filter_append, hmax2]
        congr 1
        simp [heq, htop]
      have hone : 1 ≤ (p.filter (fun x => x.2 = maxC p)).length := by
        rcases hc : s.topCandidate with _ | c
        · rw [hc] at hcand
          exact absurd hcand hne
        · rw [hc] at hcand
          have : (c, maxC p) ∈ p.filter (fun x => x.2 = maxC p) :=
            List.mem_filter.mpr ⟨hcand, by simp⟩
          have := List.length_pos.mpr (List.ne_nil_of_mem this)
          omega
      show (true = true) ↔ _
      rw [hefilter]
      simp only [List.length_append, List.length_cons, List.length_nil]
      constructor
      · intro _; omega
      · intro _; trivial
  · -- strictly smaller count: state unchanged
    have hmax2 : maxC (p ++ [e]) = maxC p := by omega
    refine ⟨by simpa [hmax2] using htop, ?_, ?_⟩
    · rcases hc : s.topCandidate with _ | c
      · rw [hc] at hcand
        subst hcand
        simp [maxC] at htop
        omega
      · rw [hc] at hcand
        rw [hmax2]
        exact List.mem_append_left _ hcand
    · have hefilter : (p ++ [e]).filter (fun x => x.2 = maxC (p ++ [e])) =
          p.filter (fun x => x.2 = maxC p) := by
        rw [List.filter_append, hmax2]
        have : [e].filter (fun x => x.2 = maxC p) = [] := by
          simp only [List.filter_cons, List.filter_nil]
          rw [if_neg (by simp; omega)]
        rw [this, List.append_nil]
      rw [hefilter]
      exact htied

/-- The invariant holds after scanning any suffix from an invariant state. -/
theorem scanInv_fold (rest : List (String × Nat)) :
    ∀ (p : List (String × Nat)) (s : ScanState),
      (∀ x ∈ rest, 1 ≤ x.2) → ScanInv p s →
      ScanInv (p ++ rest) (rest.foldl scanStep s) := by
  induction rest with
  | nil => intro p s _ hinv; simpa using hinv
  | cons e rest ih =>
    intro p s hent hinv
    have hstep := scanInv_step p e s (hent e (List.mem_cons_self e rest)) hinv
    have := ih (p ++ [e]) (scanStep s e)
      (fun x hx => hent x (List.mem_cons_of_mem e hx)) hstep
    simpa using this

/-- The scan of a full tally satisfies the invariant. -/
theorem scanInv_spec (t : List (String × Nat)) (hent : ∀ x ∈ t, 1 ≤ x.2) :
    ScanInv t (t.foldl scanStep ⟨none, 0, false⟩) := by
  have h0 : ScanInv [] ⟨none, 0, false⟩ := by
    refine ⟨by simp [maxC], rfl, by simp⟩
  simpa using scanInv_fold t [] ⟨none, 0, false⟩ hent h0

end WLT

namespace WLT

/-- A list holding two distinct members has length at least two. -/
theorem two_le_length_of_two_mem {α : Type} (l : List α) (a b : α)
    (ha : a ∈ l) (hb : b ∈ l) (hne : a ≠ b) : 2 ≤ l.length := by
  cases l with
  | nil => cases ha
  | cons x l' =>
    cases l' with
    | nil =>
      simp only [List.mem_singleton] at ha hb
      exact absurd (ha.trans hb.symm) hne
    | cons y l'' =>
      simp only [List.length_cons]
      omega

/-- The day vote lynches `c` exactly when `c` is a vote target whose count
strictly exceeds every other target's count. -/
theorem resolveDayVote_some_iff (votes : List (String × String)) (c : String) :
    resolveDayVote votes = some c ↔
      (c ∈ votes.map Prod.snd ∧
        ∀ d ∈ votes.map Prod.snd, d ≠ c → countTgt votes d < countTgt votes c) := by
  have hent : ∀ x ∈ tallyTargets votes, 1 ≤ x.2 :=
    fun x hx => (tally_entry_spec votes x hx).2.1
  have hnd := tally_nodup votes
  have hinv := scanInv_spec (tallyTargets votes) hent
  set s := (tallyTargets votes).foldl scanStep ⟨none, 0, false⟩ with hs
  obtain ⟨htop, hcand, htied⟩ := hinv
  have hres : resolveDayVote votes =
      (match s.topCandidate with
       | none => none
       | some c0 => if s.isTied = true ∨ s.topCount = 0 then none else some c0) := rfl
  rw [hres]
  cases hc : s.topCandidate with
  | none =>
    rw [hc] at hcand
    have hcand' : tallyTargets votes = [] := hcand
    constructor
    · intro h
      exact Option.noConfusion h
    · rintro ⟨hcm, _⟩
      exfalso
      have hk := (tally_keys_mem votes c).mpr hcm
      rw [hcand'] at hk
      simp [keysOf] at hk
  | some c0 =>
    rw [hc] at hcand
    have hcand' : (c0, maxC (tallyTargets votes)) ∈ tallyTargets votes := hcand
    have hc0spec := tally_entry_spec votes (c0, maxC (tallyTargets votes)) hcand'
    simp only at hc0spec
    constructor
    · intro h
      have h' : (if s.isTied = true ∨ s.topCount = 0 then none else some c0) = some c := h
      split_ifs at h' with hcond
      cases h'
      push_neg at hcond
      refine ⟨hc0spec.2.2, fun d hd hdc => ?_⟩
      have hde := tally_entry_exists votes d hd
      have hdle : countTgt votes d ≤ maxC (tallyTargets votes) :=
        le_maxC _ (d, countTgt votes d) hde
      have hdne : ¬ countTgt votes d = maxC (tallyTargets votes) := by
        intro hdm
        have hd_in : (d, countTgt votes d) ∈ (tallyTargets votes).filter
            (fun e => e.2 = maxC (tallyTargets votes)) :=
          List.mem_filter.mpr ⟨hde, by simp [hdm]⟩
        have hc_in : (c, maxC (tallyTargets votes)) ∈ (tallyTargets votes).filter
            (fun e => e.2 = maxC (tallyTargets votes)) :=
          List.mem_filter.mpr ⟨hcand', by simp⟩
        have h2 := two_le_length_of_two_mem _ _ _ hd_in hc_in
          (fun he => hdc (congrArg Prod.fst he))
        have := htied.mpr h2
        exact hcond.1 this
      have hcm2 : countTgt votes c = maxC (tallyTargets votes) := hc0spec.1.symm
      omega
    · rintro ⟨hcm, hstrict⟩
      have hcmem := tally_entry_exists votes c hcm
      have hcle : countTgt votes c ≤ maxC (tallyTargets votes) :=
        le_maxC _ (c, countTgt votes c) hcmem
      have hmax0 : countTgt votes c0 = maxC (tallyTargets votes) := hc0spec.1.symm
      have hceq : c0 = c := by
        by_contra hne
        have hlt := hstrict c0 hc0spec.2.2 hne
        omega
      subst hceq
      have hno : ¬ (s.isTied = true ∨ s.topCount = 0) := by
        rintro (ht | h0)
        · have h2 := htied.mp ht
          have hfnd : (keysOf ((tallyTargets votes).filter
              (fun e => e.2 = maxC (tallyTargets votes)))).Nodup := by
            have hsub : ((tallyTargets votes).filter
                (fun e => e.2 = maxC (tallyTargets votes))).Sublist
                (tallyTargets votes) := List.filter_sublist _
            exact hnd.sublist (hsub.map Prod.fst)
          rcases hfl : (tallyTargets votes).filter
              (fun e => e.2 = maxC (tallyTargets votes)) with _ | ⟨e1, f1⟩
          · rw [hfl] at h2
            simp at h2
          rcases f1 with _ | ⟨e2, f2⟩
          · rw [hfl] at h2
            simp at h2
          rw [hfl] at hfnd
          have hkne : e1.1 ≠ e2.1 := by
            simp only [keysOf, List.map_cons, List.nodup_cons, List.mem_cons,
              List.mem_map] at hfnd
            exact fun he => hfnd.1 (Or.inl he)
          have he1 : e1 ∈ (tallyTargets votes).filter
              (fun e => e.2 = maxC (tallyTargets votes)) := by
            rw [hfl]
            exact List.mem_cons_self _ _
          have he2 : e2 ∈ (tallyTargets votes).filter
              (fun e => e.2 = maxC (tallyTargets votes)) := by
            rw [hfl]
            exact List.mem_cons_of_mem _ (List.mem_cons_self _ _)
          have he1t := List.mem_of_mem_filter he1
          have he2t := List.mem_of_mem_filter he2
          have he1m : e1.2 = maxC (tallyTargets votes) := by
            simpa using List.of_mem_filter he1
          have he2m : e2.2 = maxC (tallyTargets votes) := by
            simpa using List.of_mem_filter he2
          have he1c := tally_entry_spec votes e1 he1t
          have he2c := tally_entry_spec votes e2 he2t
          have hcc : countTgt votes c0 = maxC (tallyTargets votes) := hmax0
          by_cases hc1 : e1.1 = c0
          · have hc2 : e2.1 ≠ c0 := fun h => hkne (hc1.trans h.symm)
            have := hstrict e2.1 he2c.2.2 hc2
            omega
          · have := hstrict e1.1 he1c.2.2 hc1
            omega
        · rw [htop] at h0
          have h1 := hc0spec.2.1
          omega
      show (if s.isTied = true ∨ s.topCount = 0 then none else some c0) = some c0
      rw [if_neg hno]

end WLT

namespace WLT

/-- C3: for every vote map, the resolver lynches exactly the candidate whose
vote count is strictly highest, with no other candidate tied at that count;
an empty vote map, or a top-count tie (no strict top scorer), eliminates no
one; applied to a vote-phase room, the lynched player's alive flag flips and
a `none` result leaves the roster untouched. -/
theorem c3_day_vote_resolution (votes : List (String × String)) :
    (∀ c, resolveDayVote votes = some c ↔
      (c ∈ votes.map Prod.snd ∧
        ∀ d ∈ votes.map Prod.snd, d ≠ c → countTgt votes d < countTgt votes c)) ∧
    (votes = [] → resolveDayVote votes = none) ∧
    ((¬ ∃ c ∈ votes.map Prod.snd,
        ∀ d ∈ votes.map Prod.snd, d ≠ c → countTgt votes d < countTgt votes c) →
      resolveDayVote votes = none) ∧
    (∀ room : Room, room.phase = Phase.vote → room.votes = votes →
      (∀ c p, resolveDayVote votes = some c → findPlayer room c = some p →
        findPlayer (resolveVotePhaseStep room) c = some { p with alive := false }) ∧
      (resolveDayVote votes = none →
        (resolveVotePhaseStep room).players = room.players)) := by
  refine ⟨resolveDayVote_some_iff votes, ?_, ?_, ?_⟩
  · rintro rfl
    rfl
  · intro hne
    cases hr : resolveDayVote votes with
    | none => rfl
    | some c =>
      have := (resolveDayVote_some_iff votes c).mp hr
      exact absurd ⟨c, this.1, this.2⟩ hne
  · intro room hphase hv
    subst hv
    constructor
    · intro c p hsome hf
      have hptgt : p.id = c := by
        have := List.find?_some hf
        simpa using this
      have hfind : (room.players.map
          (fun q => if q.id = c then { q with alive := false } else q)).find?
            (fun q => q.id = c) = some { p with alive := false } := by
        rw [find?_map_flip]
        unfold findPlayer at hf
        rw [hf]
        simp [hptgt]
      simp only [resolveVotePhaseStep, hsome]
      rw [if_neg (not_not_intro hphase)]
      split <;> simpa [findPlayer] using hfind
    · intro hnone
      simp only [resolveVotePhaseStep, hnone]
      rw [if_neg (not_not_intro hphase)]
      split <;> rfl

/-- A vote-phase room carrying a strict-top vote map against B. -/
def voteRoomStrict : Room :=
  { mkTestRoom
      [mkTestPlayer "A" Role.mafia true, mkTestPlayer "B" Role.citizen true,
       mkTestPlayer "C" Role.doctor true, mkTestPlayer "D" Role.citizen true,
       mkTestPlayer "E" Role.citizen true]
      Phase.vote with
    votes := [("A", "B"), ("B", "C"), ("C", "B"), ("D", "B"), ("E", "C")] }

/-- Concrete run of `c3_day_vote_resolution`: B (three votes against C's two)
is lynched and the flag flips; a 2-2 tie and the empty map lynch no one. -/
theorem c3_day_vote_resolution_witness :
    resolveDayVote [("A", "B"), ("B", "C"), ("C", "B"), ("D", "B"), ("E", "C")] =
      some "B" ∧
    findPlayer (resolveVotePhaseStep voteRoomStrict) "B" =
      some { mkTestPlayer "B" Role.citizen true with alive := false } ∧
    resolveDayVote [("A", "B"), ("B", "C"), ("C", "B"), ("D", "C")] = none ∧
    resolveDayVote [] = none := by
  have h := c3_day_vote_resolution
    [("A", "B"), ("B", "C"), ("C", "B"), ("D", "B"), ("E", "C")]
  have htie := c3_day_vote_resolution [("A", "B"), ("B", "C"), ("C", "B"), ("D", "C")]
  have hemp := c3_day_vote_resolution ([] : List (String × String))
  have hsome : resolveDayVote
      [("A", "B"), ("B", "C"), ("C", "B"), ("D", "B"), ("E", "C")] = some "B" :=
    (h.1 "B").mpr (by decide)
  refine ⟨hsome, ?_, htie.2.2.1 (by decide), hemp.2.1 rfl⟩
  exact (h.2.2.2 voteRoomStrict rfl rfl).1 "B" (mkTestPlayer "B" Role.citizen true)
    hsome (by decide)

end WLT
